import Mathlib

/-!
Shallow embedding of the versioned file store of `strapdown-server.go`
(the only source file of the repository).  The git layer (git2go) is an
external library; it is modelled as the linear single-parent revision
store the server actually builds: a commit chain (head first), a working
directory, and a staging index, all as association lists from path to
byte content (content kept as `String`, matching the server's own
`string(blb.Contents())` conversion; blob indirection is collapsed, a
tree maps each path directly to the content its blob holds).
-/

set_option autoImplicit false

namespace Strapdown

/-- Association-list lookup, first binding wins (models `tree.EntryByName`
and reading a file from a directory). -/
def alookup (m : List (String × String)) (k : String) : Option String :=
  match m with
  | [] => none
  | (k2, v) :: rest => if k2 = k then some v else alookup rest k

/-- Association-list update: replace the binding of `k` if present,
append otherwise (models `ioutil.WriteFile` replacing a file's content and
`index.AddByPath` restaging a path). -/
def aupdate (m : List (String × String)) (k v : String) : List (String × String) :=
  match m with
  | [] => [(k, v)]
  | (k2, v2) :: rest => if k2 = k then (k, v) :: rest else (k2, v2) :: aupdate rest k v

/-- Go's `s[0:n]` content for ASCII strings (identifiers are hexadecimal,
one byte per character), as a kernel-computable list-based function. -/
def strTake (s : String) (n : Nat) : String := String.mk (s.data.take n)

/-- Go's `s[1:]` (dropping `n` leading bytes) for ASCII strings, as a
kernel-computable list-based function. -/
def strDrop (s : String) (n : Nat) : String := String.mk (s.data.drop n)

/-- Go's `strings.HasPrefix`, as a kernel-computable list-based function. -/
def hasPre (s pre : String) : Bool := pre.data.isPrefixOf s.data

instance instDecEqExcept {ε α : Type} [DecidableEq ε] [DecidableEq α] :
    DecidableEq (Except ε α) := fun a b =>
  match a, b with
  | Except.ok x, Except.ok y =>
      if h : x = y then Decidable.isTrue (by rw [h])
      else Decidable.isFalse fun hcon => h (Except.ok.inj hcon)
  | Except.ok _, Except.error _ => Decidable.isFalse fun hcon => Except.noConfusion hcon
  | Except.error _, Except.ok _ => Decidable.isFalse fun hcon => Except.noConfusion hcon
  | Except.error x, Except.error y =>
      if h : x = y then Decidable.isTrue (by rw [h])
      else Decidable.isFalse fun hcon => h (Except.error.inj hcon)

/-- A revision: its full hexadecimal identifier and its snapshot tree
(path to blob content).  Parenthood is positional: in a `Store`'s chain,
each commit's single parent (`commit.Parent(0)`) is the next list entry. -/
structure Commit where
  id : String
  tree : List (String × String)
  deriving Repr, DecidableEq

/-- The store state the server manipulates: the linear commit chain from
Head (head first, root last; `[]` before the first commit), the on-disk
working directory, and the git staging index. -/
structure Store where
  chain : List Commit
  disk : List (String × String)
  index : List (String × String)
  deriving Repr, DecidableEq

/-- Head identifier: the id of the newest commit, `none` before the first
commit (models `repo.Head()` resolving to the branch tip, or failing). -/
def headId (st : Store) : Option String :=
  match st.chain with
  | [] => none
  | c :: _ => some c.id

/-- Every error a step of the server can surface, one constructor per
failing call site so distinct outcomes stay distinct. -/
inductive GoErr where
  | mkdirErr
  | writeErr
  | openRepoErr
  | indexErr
  | addErr
  | writeTreeErr
  | lookupTreeErr
  | lookupCommitErr
  | createCommitErr
  | headErr
  | versionLenErr
  | sliceErr
  | readErr
  deriving Repr, DecidableEq

/-- Go's byte-slice `s[0:n]`: the first `n` characters when `n` is in
bounds, and `none` (a runtime panic in Go) otherwise. -/
def goSlice (s : String) (n : Nat) : Option String :=
  if n ≤ s.length then some (strTake s n) else none

/-- Embedding of `getFile` (strapdown-server.go:143-163): look the file
name up in the commit's tree; a missing entry returns `nil, nil`
(`Except.ok none` here), a present entry returns the blob's bytes. -/
def getFile (commit : Commit) (fileName : String) : Except GoErr (Option String) :=
  match alookup commit.tree fileName with
  | none => Except.ok none
  | some content => Except.ok (some content)

/-- The walk loop of `getFileOfVersion` (strapdown-server.go:189-203):
starting from the given commit, follow first parents; at each node slice
the identifier to the version's length and compare; on the first match
return `getFile` of that commit, and `nil, nil` when the chain ends. -/
def walkChain (chain : List Commit) (fileName : String) (version : String) :
    Except GoErr (Option String) :=
  match chain with
  | [] => Except.ok none
  | c :: rest =>
      match goSlice c.id version.length with
      | none => Except.error GoErr.sliceErr
      | some front =>
          if front = version then getFile c fileName
          else walkChain rest fileName version

/-- Embedding of `getFileOfVersion` (strapdown-server.go:165-205): open
the repository, resolve Head and its commit (failing on an empty chain,
as `repo.Head()` does on an unborn branch), then check the version length
is in `[4, 40]`, then walk the chain. -/
def getFileOfVersion (st : Store) (fileName : String) (version : String) :
    Except GoErr (Option String) :=
  match st.chain with
  | [] => Except.error GoErr.headErr
  | c :: rest =>
      let vl := version.length
      if vl < 4 ∨ vl > 40 then Except.error GoErr.versionLenErr
      else walkChain (c :: rest) fileName version

/-- Failure injection for the fallible steps of `save_and_commit`, one
flag per call site in source order, plus the identifier git will assign
to a commit created in this call (content-addressed in git, so external
to the server's own logic). -/
structure Env where
  mkdirFails : Bool
  writeFails : Bool
  openRepoFails : Bool
  indexFails : Bool
  addFails : Bool
  writeTreeFails : Bool
  lookupTreeFails : Bool
  lookupCommitFails : Bool
  createCommitFails : Bool
  newId : String
  deriving Repr, DecidableEq

/-- Embedding of `save_and_commit` (strapdown-server.go:68-125): make the
parent directories, write the content to disk, open the repository, take
its index, stage exactly the written path (`index.AddByPath(fp)`), write
the index out as the tree, then create a commit on HEAD whose parent is
the current tip when `repo.Head()` resolves and which is a root commit
otherwise.  Returns the server's result together with the store state
after the call. -/
def save_and_commit (env : Env) (st : Store) (fp : String) (content : String) :
    Except GoErr Unit × Store :=
  if env.mkdirFails then (Except.error GoErr.mkdirErr, st)
  else if env.writeFails then (Except.error GoErr.writeErr, st)
  else
    let st1 : Store := { st with disk := aupdate st.disk fp content }
    if env.openRepoFails then (Except.error GoErr.openRepoErr, st1)
    else if env.indexFails then (Except.error GoErr.indexErr, st1)
    else if env.addFails then (Except.error GoErr.addErr, st1)
    else
      let st2 : Store := { st1 with index := aupdate st1.index fp content }
      if env.writeTreeFails then (Except.error GoErr.writeTreeErr, st2)
      else if env.lookupTreeFails then (Except.error GoErr.lookupTreeErr, st2)
      else
        match st2.chain with
        | [] =>
            if env.createCommitFails then (Except.error GoErr.createCommitErr, st2)
            else (Except.ok (),
              { st2 with chain := [{ id := env.newId, tree := st2.index }] })
        | tip :: rest =>
            if env.lookupCommitFails then (Except.error GoErr.lookupCommitErr, st2)
            else if env.createCommitFails then (Except.error GoErr.createCommitErr, st2)
            else (Except.ok (),
              { st2 with chain :=
                  { id := env.newId, tree := st2.index } :: tip :: rest })

/-- What the POST/PUT branch of `handle` answers. -/
inductive PostOutcome where
  | forbidden
  | saveFailed : GoErr → PostOutcome
  | redirect
  deriving Repr, DecidableEq

/-- Embedding of the write path of `handle` (strapdown-server.go:232-308):
strip the leading slash from the URL path, refuse `.git` and anything
under `.git/`, otherwise append `.md` and run `save_and_commit` on it,
answering a redirect on success. -/
def handlePost (env : Env) (st : Store) (urlPath : String) (body : String) :
    PostOutcome × Store :=
  let fp := strDrop urlPath 1
  if hasPre fp ".git/" ∨ fp = ".git" then (PostOutcome.forbidden, st)
  else
    let fp2 := fp ++ ".md"
    match save_and_commit env st fp2 body with
    | (Except.ok _, st2) => (PostOutcome.redirect, st2)
    | (Except.error e, st2) => (PostOutcome.saveFailed e, st2)

/-- Embedding of the plain (non-versioned) read, `ioutil.ReadFile(fp)` in
`handle` (strapdown-server.go:336): read the file from the working
directory. -/
def readFile (disk : List (String × String)) (fp : String) : Except GoErr String :=
  match alookup disk fp with
  | some content => Except.ok content
  | none => Except.error GoErr.readErr

/-- The first commit of a chain whose identifier begins with the version
string (the revision the walk stops at). -/
def firstMatch (chain : List Commit) (version : String) : Option Commit :=
  match chain with
  | [] => none
  | c :: rest =>
      if strTake c.id version.length = version then some c
      else firstMatch rest version

/-- The identifier of the single parent of the Head commit: `none` when
there is no commit or the Head commit is the root. -/
def parentIdOfHead (st : Store) : Option String :=
  match st.chain with
  | [] => none
  | [_] => none
  | _ :: p :: _ => some p.id

/-- The errors that arise in the commit phase of `save_and_commit`, after
the disk write has already succeeded (the spec's `CommitFailure` family). -/
def commitPhaseErr (e : GoErr) : Prop :=
  e = GoErr.openRepoErr ∨ e = GoErr.indexErr ∨ e = GoErr.addErr ∨
  e = GoErr.writeTreeErr ∨ e = GoErr.lookupTreeErr ∨
  e = GoErr.lookupCommitErr ∨ e = GoErr.createCommitErr

/-- A concrete 40-character identifier, for witnesses. -/
def idA : String := "aaaaaaaaaaaaaaaaaaaaaaaaaaaaaaaaaaaaaaaa"

/-- A second concrete 40-character identifier, for witnesses. -/
def idB : String := "bbbbbbbbbbbbbbbbbbbbbbbbbbbbbbbbbbbbbbbb"

/-- A concrete environment in which every step succeeds and the created
commit gets identifier `idA`. -/
def envOkA : Env := ⟨false, false, false, false, false, false, false, false, false, idA⟩

/-- A concrete environment in which every step succeeds and the created
commit gets identifier `idB`. -/
def envOkB : Env := ⟨false, false, false, false, false, false, false, false, false, idB⟩

/-- A concrete one-commit store whose only page is `x.md`. -/
def stOne : Store :=
  ⟨[{ id := idA, tree := [("x.md", "hi")] }], [("x.md", "hi")], [("x.md", "hi")]⟩

/-- A concrete store with no history yet whose working directory already
holds a file that was never staged. -/
def stDisk : Store := ⟨[], [("other.md", "x")], []⟩

/-- A concrete environment whose disk write fails (everything before it
succeeds). -/
def envWriteFail : Env := ⟨false, true, false, false, false, false, false, false, false, idA⟩

/-- A concrete environment whose repository open fails after a successful
disk write. -/
def envOpenFail : Env := ⟨false, false, true, false, false, false, false, false, false, idA⟩

/-!
Helper lemmas shared by the claim theorems.
-/

/-- Updating an association list and reading the same key back gives the
written value. -/
theorem alookup_aupdate_self (m : List (String × String)) (k v : String) :
    alookup (aupdate m k v) k = some v := by
  induction m with
  | nil => simp [aupdate, alookup]
  | cons hd tl ih =>
      obtain ⟨k2, v2⟩ := hd
      by_cases h : k2 = k
      · simp [aupdate, alookup, h]
      · simp [aupdate, alookup, h, ih]

/-- When every identifier in the chain is 40 characters long and the
version is at most 40 characters, the walk never hits the slice panic and
computes exactly the `getFile` of the first matching commit (or a nil
result when no commit matches). -/
theorem walkChain_eq_firstMatch (chain : List Commit) (p v : String)
    (hids : ∀ c ∈ chain, c.id.length = 40) (hv : v.length ≤ 40) :
    walkChain chain p v =
      match firstMatch chain v with
      | none => Except.ok none
      | some m => getFile m p := by
  induction chain with
  | nil => simp [walkChain, firstMatch]
  | cons c rest ih =>
      have hc : c.id.length = 40 := hids c (by simp)
      have hslice : goSlice c.id v.length = some (strTake c.id v.length) := by
        simp [goSlice, hc, hv]
      by_cases hm : strTake c.id v.length = v
      · simp [walkChain, firstMatch, hslice, hm]
      · simp only [walkChain, firstMatch, hslice, hm, if_neg, if_false]
        simpa [hm] using ih (fun c2 h2 => hids c2 (List.mem_cons_of_mem c h2))

/-- A chain holding a commit whose identifier begins with the version
always has a first matching commit, and it matches. -/
theorem firstMatch_exists_of_mem (chain : List Commit) (v : String) (r : Commit)
    (hr : r ∈ chain) (hmatch : strTake r.id v.length = v) :
    ∃ m, firstMatch chain v = some m ∧ strTake m.id v.length = v := by
  induction chain with
  | nil => cases hr
  | cons c rest ih =>
      by_cases hm : strTake c.id v.length = v
      · exact ⟨c, by simp [firstMatch, hm], hm⟩
      · rcases List.mem_cons.mp hr with h | h
        · subst h
          exact absurd hmatch hm
        · obtain ⟨m, h1, h2⟩ := ih h
          exact ⟨m, by simp [firstMatch, hm, h1], h2⟩

/-- On a non-empty chain and an in-range version length, `getFileOfVersion`
reduces to the walk. -/
theorem getFileOfVersion_valid (st : Store) (p v : String)
    (hne : st.chain ≠ []) (h4 : 4 ≤ v.length) (h40 : v.length ≤ 40) :
    getFileOfVersion st p v = walkChain st.chain p v := by
  have hcond : ¬(v.length < 4 ∨ v.length > 40) := by omega
  cases hchain : st.chain with
  | nil => exact absurd hchain hne
  | cons c rest => simp [getFileOfVersion, hchain, hcond]

/-- A `save_and_commit` call that returns success went through every step:
the store afterwards has the content written to disk, the path restaged in
the index, and a new commit (identifier from the environment, tree equal to
the updated index) in front of the old chain. -/
theorem save_and_commit_success_shape (env : Env) (st : Store) (fp content : String)
    (hsucc : (save_and_commit env st fp content).1 = Except.ok ()) :
    save_and_commit env st fp content =
      (Except.ok (),
       ⟨{ id := env.newId, tree := aupdate st.index fp content } :: st.chain,
        aupdate st.disk fp content, aupdate st.index fp content⟩) := by
  unfold save_and_commit at hsucc ⊢
  cases h1 : env.mkdirFails <;> simp [h1] at hsucc ⊢
  cases h2 : env.writeFails <;> simp [h2] at hsucc ⊢
  cases h3 : env.openRepoFails <;> simp [h3] at hsucc ⊢
  cases h4 : env.indexFails <;> simp [h4] at hsucc ⊢
  cases h5 : env.addFails <;> simp [h5] at hsucc ⊢
  cases h6 : env.writeTreeFails <;> simp [h6] at hsucc ⊢
  cases h7 : env.lookupTreeFails <;> simp [h7] at hsucc ⊢
  cases hchain : st.chain with
  | nil =>
      cases h9 : env.createCommitFails <;> simp [hchain, h9] at hsucc ⊢
  | cons tip rest =>
      cases h8 : env.lookupCommitFails <;> simp [hchain, h8] at hsucc ⊢
      cases h9 : env.createCommitFails <;> simp [h9] at hsucc ⊢

/-!
Claim theorems.
-/

/-- Claim C1, counterexample: on a concrete one-commit store, resolving a
version whose revision exists but whose tree lacks the requested path
yields exactly the same outcome (`nil` content, `nil` error) as resolving
a version no revision matches, so the two cases are not distinguishable by
the caller, contrary to the claim. -/
theorem absent_path_same_as_no_match_cex :
    (∃ m, firstMatch stOne.chain "aaaa" = some m ∧ alookup m.tree "p.md" = none) ∧
    firstMatch stOne.chain "bbbb" = none ∧
    getFileOfVersion stOne "p.md" "aaaa" = Except.ok none ∧
    getFileOfVersion stOne "p.md" "bbbb" = Except.ok none := by
  exact ⟨⟨{ id := idA, tree := [("x.md", "hi")] }, by decide, by decide⟩,
    by decide, by decide, by decide⟩

/-- Claim C1, amended: when the resolved revision exists but the page path
has no entry in its tree, `getFileOfVersion` returns a nil content with a
nil error — the very same value it returns when no revision in the chain
matches the version, so the two outcomes are conflated, not distinct. -/
theorem resolve_absent_path_eq_no_match (st : Store) (p v : String)
    (hne : st.chain ≠ []) (h4 : 4 ≤ v.length) (h40 : v.length ≤ 40)
    (hids : ∀ c ∈ st.chain, c.id.length = 40)
    (h : (∃ m, firstMatch st.chain v = some m ∧ alookup m.tree p = none) ∨
         firstMatch st.chain v = none) :
    getFileOfVersion st p v = Except.ok none := by
  rw [getFileOfVersion_valid st p v hne h4 h40,
      walkChain_eq_firstMatch st.chain p v hids h40]
  rcases h with ⟨m, hm, habs⟩ | hnm
  · simp [hm, getFile, habs]
  · simp [hnm]

/-- Claim C1, witness for the amended theorem at a concrete store. -/
theorem resolve_absent_path_eq_no_match_witness :
    getFileOfVersion stOne "p.md" "aaaa" = Except.ok none :=
  resolve_absent_path_eq_no_match stOne "p.md" "aaaa" (by decide) (by decide)
    (by decide) (by decide)
    (Or.inl ⟨{ id := idA, tree := [("x.md", "hi")] }, by decide, by decide⟩)

/-- Claim C2, counterexample: a POST whose path climbs out of the store
root with `..` is not rejected: the handler performs the disk write at the
escaping path and creates a commit, returning a redirect rather than any
invalid-path failure. -/
theorem traversal_path_not_rejected_cex :
    handlePost envOkA ⟨[], [], []⟩ "/../escape" "body" =
      (PostOutcome.redirect,
       ⟨[{ id := idA, tree := [("../escape.md", "body")] }],
        [("../escape.md", "body")], [("../escape.md", "body")]⟩) := by
  decide

/-- Claim C2, amended: the only path validation is in the HTTP handler,
which refuses exactly the paths equal to `.git` or beginning with `.git/`
before `save_and_commit` runs, leaving the store untouched; traversal
paths are not validated and proceed to the disk write and commit. -/
theorem handle_rejects_git_paths (env : Env) (st : Store) (urlPath body : String)
    (h : hasPre (strDrop urlPath 1) ".git/" = true ∨ strDrop urlPath 1 = ".git") :
    handlePost env st urlPath body = (PostOutcome.forbidden, st) := by
  unfold handlePost
  simp [h]

/-- Claim C2, witness for the amended theorem at the reserved path. -/
theorem handle_rejects_git_paths_witness :
    handlePost envOkA stOne "/.git" "body" = (PostOutcome.forbidden, stOne) :=
  handle_rejects_git_paths envOkA stOne "/.git" "body" (Or.inr (by decide))

/-- Claim C3, counterexample: saving `a.md` into a store whose working
directory already holds an unstaged `other.md` succeeds, yet the new
revision's tree contains only `a.md` — `other.md` is on disk but absent
from the commit's tree, so the tree does not reflect the entire on-disk
content. -/
theorem tree_not_full_disk_cex :
    save_and_commit envOkA stDisk "a.md" "y" =
      (Except.ok (),
       ⟨[{ id := idA, tree := [("a.md", "y")] }],
        [("other.md", "x"), ("a.md", "y")], [("a.md", "y")]⟩) ∧
    alookup [("a.md", "y")] "other.md" = none ∧
    alookup [("other.md", "x"), ("a.md", "y")] "other.md" = some "x" := by
  decide

/-- Claim C3, amended: the tree of the newly created revision is the git
staging index with the saved path restaged to the new content — the saved
page plus whatever was previously staged — not the full on-disk working
directory; disk files never staged do not appear in the tree. -/
theorem save_tree_is_staged_index (env : Env) (st : Store) (fp content : String)
    (hsucc : (save_and_commit env st fp content).1 = Except.ok ()) :
    (save_and_commit env st fp content).2.chain =
      { id := env.newId, tree := aupdate st.index fp content } :: st.chain := by
  rw [save_and_commit_success_shape env st fp content hsucc]

/-- Claim C3, witness for the amended theorem at a concrete store. -/
theorem save_tree_is_staged_index_witness :
    (save_and_commit envOkA stDisk "a.md" "y").2.chain =
      { id := envOkA.newId, tree := aupdate stDisk.index "a.md" "y" } :: stDisk.chain :=
  save_tree_is_staged_index envOkA stDisk "a.md" "y" (by decide)

/-- Claim C4: for any revision in the chain whose 40-character identifier
begins with an in-range version string, the walk from Head stops at the
first matching revision and `getFileOfVersion` returns exactly the content
that revision's tree stores for the path. -/
theorem resolve_finds_first_matching_revision (st : Store) (p v : String) (r : Commit)
    (h4 : 4 ≤ v.length) (h40 : v.length ≤ 40)
    (hids : ∀ c ∈ st.chain, c.id.length = 40)
    (hr : r ∈ st.chain) (hmatch : strTake r.id v.length = v) :
    ∃ m, firstMatch st.chain v = some m ∧ strTake m.id v.length = v ∧
      getFileOfVersion st p v = Except.ok (alookup m.tree p) := by
  obtain ⟨m, hm, hmv⟩ := firstMatch_exists_of_mem st.chain v r hr hmatch
  have hne : st.chain ≠ [] := by
    intro hnil
    rw [hnil] at hr
    cases hr
  refine ⟨m, hm, hmv, ?_⟩
  rw [getFileOfVersion_valid st p v hne h4 h40,
      walkChain_eq_firstMatch st.chain p v hids h40]
  simp only [hm]
  unfold getFile
  cases halk : alookup m.tree p <;> simp [halk]

/-- Claim C4, witness at a concrete one-commit store. -/
theorem resolve_finds_first_matching_revision_witness :
    ∃ m, firstMatch stOne.chain "aaaa" = some m ∧
      strTake m.id "aaaa".length = "aaaa" ∧
      getFileOfVersion stOne "x.md" "aaaa" = Except.ok (alookup m.tree "x.md") :=
  resolve_finds_first_matching_revision stOne "x.md" "aaaa"
    { id := idA, tree := [("x.md", "hi")] } (by decide) (by decide) (by decide)
    (by decide) (by decide)

/-- Claim C5, counterexample: on a store with no commits, an out-of-range
version does not produce the length error — `repo.Head()` is consulted
first and its failure is returned instead, so the rejection is not
independent of the store's history contents. -/
theorem empty_store_bad_length_cex :
    getFileOfVersion ⟨[], [], []⟩ "p.md" "ab" = Except.error GoErr.headErr ∧
    GoErr.headErr ≠ GoErr.versionLenErr := by
  decide

/-- Claim C5, amended: on every store whose Head resolves (at least one
commit), a version whose length is below 4 or above 40 makes
`getFileOfVersion` fail with the version-length error, whatever the chain
holds, before any step of the walk runs. -/
theorem resolve_rejects_bad_length (st : Store) (p v : String)
    (hne : st.chain ≠ []) (hlen : v.length < 4 ∨ v.length > 40) :
    getFileOfVersion st p v = Except.error GoErr.versionLenErr := by
  cases hchain : st.chain with
  | nil => exact absurd hchain hne
  | cons c rest => simp [getFileOfVersion, hchain, hlen]

/-- Claim C5, witness for the amended theorem at a concrete store. -/
theorem resolve_rejects_bad_length_witness :
    getFileOfVersion stOne "p.md" "ab" = Except.error GoErr.versionLenErr :=
  resolve_rejects_bad_length stOne "p.md" "ab" (by decide) (Or.inl (by decide))

/-- Claim C6: a successful save whose fresh commit identifier differs from
the old Head (content addressing guarantees this in git) moves Head to the
new identifier, so Head changes, and the new Head's single parent is the
prior Head — `none` (a rootless commit) exactly when Head was empty. -/
theorem save_advances_head (env : Env) (st : Store) (fp content : String)
    (hsucc : (save_and_commit env st fp content).1 = Except.ok ())
    (hfresh : headId st ≠ some env.newId) :
    headId (save_and_commit env st fp content).2 = some env.newId ∧
    headId (save_and_commit env st fp content).2 ≠ headId st ∧
    parentIdOfHead (save_and_commit env st fp content).2 = headId st := by
  rw [save_and_commit_success_shape env st fp content hsucc]
  refine ⟨rfl, ?_, ?_⟩
  · simpa [headId] using fun h => hfresh h.symm
  · cases hchain : st.chain <;> simp [parentIdOfHead, headId, hchain]

/-- Claim C6, witness: a second save on the concrete one-commit store. -/
theorem save_advances_head_witness :
    headId (save_and_commit envOkB stOne "x.md" "new").2 = some envOkB.newId ∧
    headId (save_and_commit envOkB stOne "x.md" "new").2 ≠ headId stOne ∧
    parentIdOfHead (save_and_commit envOkB stOne "x.md" "new").2 = headId stOne :=
  save_advances_head envOkB stOne "x.md" "new" (by decide) (by decide)

/-- Claim C7: when the disk write of the page content fails (directory
creation having succeeded), `save_and_commit` returns the write error and
the whole store — chain, Head, disk, index — is exactly as before the
call; no commit is attempted. -/
theorem write_failure_aborts_commit (env : Env) (st : Store) (fp content : String)
    (hmk : env.mkdirFails = false) (hw : env.writeFails = true) :
    save_and_commit env st fp content = (Except.error GoErr.writeErr, st) := by
  unfold save_and_commit
  simp [hmk, hw]

/-- Claim C7, witness at a concrete store and a write-failing environment. -/
theorem write_failure_aborts_commit_witness :
    save_and_commit envWriteFail stOne "x.md" "new" =
      (Except.error GoErr.writeErr, stOne) :=
  write_failure_aborts_commit envWriteFail stOne "x.md" "new" rfl rfl

/-- Claim C8: when the disk write succeeds but the call still fails, the
error is one of the commit-phase errors, the written content is on disk in
the resulting state, and the chain (hence Head) is unchanged. -/
theorem commit_failure_keeps_disk_write (env : Env) (st : Store) (fp content : String)
    (hmk : env.mkdirFails = false) (hw : env.writeFails = false)
    (hfail : (save_and_commit env st fp content).1 ≠ Except.ok ()) :
    ∃ e, (save_and_commit env st fp content).1 = Except.error e ∧ commitPhaseErr e ∧
      alookup (save_and_commit env st fp content).2.disk fp = some content ∧
      (save_and_commit env st fp content).2.chain = st.chain := by
  unfold save_and_commit at hfail ⊢
  simp only [hmk, hw, Bool.false_eq_true, if_false] at hfail ⊢
  cases h3 : env.openRepoFails with
  | true =>
      exact ⟨GoErr.openRepoErr, by simp [h3], Or.inl rfl,
        by simp [h3, alookup_aupdate_self], by simp [h3]⟩
  | false =>
  simp only [h3, Bool.false_eq_true, if_false] at hfail ⊢
  cases h4 : env.indexFails with
  | true =>
      exact ⟨GoErr.indexErr, by simp [h4], Or.inr (Or.inl rfl),
        by simp [h4, alookup_aupdate_self], by simp [h4]⟩
  | false =>
  simp only [h4, Bool.false_eq_true, if_false] at hfail ⊢
  cases h5 : env.addFails with
  | true =>
      exact ⟨GoErr.addErr, by simp [h5], Or.inr (Or.inr (Or.inl rfl)),
        by simp [h5, alookup_aupdate_self], by simp [h5]⟩
  | false =>
  simp only [h5, Bool.false_eq_true, if_false] at hfail ⊢
  cases h6 : env.writeTreeFails with
  | true =>
      exact ⟨GoErr.writeTreeErr, by simp [h6], Or.inr (Or.inr (Or.inr (Or.inl rfl))),
        by simp [h6, alookup_aupdate_self], by simp [h6]⟩
  | false =>
  simp only [h6, Bool.false_eq_true, if_false] at hfail ⊢
  cases h7 : env.lookupTreeFails with
  | true =>
      exact ⟨GoErr.lookupTreeErr, by simp [h7],
        Or.inr (Or.inr (Or.inr (Or.inr (Or.inl rfl)))),
        by simp [h7, alookup_aupdate_self], by simp [h7]⟩
  | false =>
  simp only [h7, Bool.false_eq_true, if_false] at hfail ⊢
  cases hchain : st.chain with
  | nil =>
      simp only [hchain] at hfail ⊢
      cases h9 : env.createCommitFails with
      | true =>
          exact ⟨GoErr.createCommitErr, by simp [h9],
            Or.inr (Or.inr (Or.inr (Or.inr (Or.inr (Or.inr rfl))))),
            by simp [h9, alookup_aupdate_self], by simp [h9, hchain]⟩
      | false => simp [h9] at hfail
  | cons tip rest =>
      simp only [hchain] at hfail ⊢
      cases h8 : env.lookupCommitFails with
      | true =>
          exact ⟨GoErr.lookupCommitErr, by simp [h8],
            Or.inr (Or.inr (Or.inr (Or.inr (Or.inr (Or.inl rfl))))),
            by simp [h8, alookup_aupdate_self], by simp [h8, hchain]⟩
      | false =>
      simp only [h8, Bool.false_eq_true, if_false] at hfail ⊢
      cases h9 : env.createCommitFails with
      | true =>
          exact ⟨GoErr.createCommitErr, by simp [h9],
            Or.inr (Or.inr (Or.inr (Or.inr (Or.inr (Or.inr rfl))))),
            by simp [h9, alookup_aupdate_self], by simp [h9, hchain]⟩
      | false => simp [h9] at hfail

/-- Claim C8, witness: the repository-open step fails after the write. -/
theorem commit_failure_keeps_disk_write_witness :
    ∃ e, (save_and_commit envOpenFail stOne "x.md" "new").1 = Except.error e ∧
      commitPhaseErr e ∧
      alookup (save_and_commit envOpenFail stOne "x.md" "new").2.disk "x.md" = some "new" ∧
      (save_and_commit envOpenFail stOne "x.md" "new").2.chain = stOne.chain :=
  commit_failure_keeps_disk_write envOpenFail stOne "x.md" "new" rfl rfl (by decide)

/-- Claim C9: a successful save of some content followed immediately by a
plain (non-versioned) read of the same path returns exactly that content. -/
theorem save_read_roundtrip (env : Env) (st : Store) (fp content : String)
    (hsucc : (save_and_commit env st fp content).1 = Except.ok ()) :
    readFile (save_and_commit env st fp content).2.disk fp = Except.ok content := by
  rw [save_and_commit_success_shape env st fp content hsucc]
  simp [readFile, alookup_aupdate_self]

/-- Claim C9, witness at a concrete store. -/
theorem save_read_roundtrip_witness :
    readFile (save_and_commit envOkA stDisk "a.md" "y").2.disk "a.md" =
      Except.ok "y" :=
  save_read_roundtrip envOkA stDisk "a.md" "y" (by decide)

/-- Claim C10: once the version length is in `[4, 40]` and every
identifier in the chain is 40 characters, the slice taken at each node of
the walk is in bounds, so the lookup never fails with the out-of-range
slice error. -/
theorem walk_slices_within_bounds (st : Store) (p v : String)
    (h4 : 4 ≤ v.length) (h40 : v.length ≤ 40)
    (hids : ∀ c ∈ st.chain, c.id.length = 40) :
    getFileOfVersion st p v ≠ Except.error GoErr.sliceErr := by
  cases hchain : st.chain with
  | nil => simp [getFileOfVersion, hchain]
  | cons c rest =>
      have hne : st.chain ≠ [] := by simp [hchain]
      rw [getFileOfVersion_valid st p v hne h4 h40,
          walkChain_eq_firstMatch st.chain p v hids h40]
      cases hm : firstMatch st.chain v with
      | none => simp
      | some m =>
          simp only [hm]
          unfold getFile
          cases halk : alookup m.tree p <;> simp

/-- Claim C10, witness at a concrete store. -/
theorem walk_slices_within_bounds_witness :
    getFileOfVersion stOne "x.md" "aaaa" ≠ Except.error GoErr.sliceErr :=
  walk_slices_within_bounds stOne "x.md" "aaaa" (by decide) (by decide) (by decide)

end Strapdown
